import Mathlib

/-!
Verification of the podcast-generator audio pipeline.

The definitions below are shallow embeddings of the TypeScript sources:
`src/utils/textSplitter.ts` (chunker), `src/utils/audioGenerator.ts`
(voice assignment, cache keys, segment cache, download orchestrator,
retry/backoff, buffer assembly).  Strings are modelled as `List Char`,
binary buffers as `List Nat` (byte values), JavaScript `ArrayBuffer`
object identity via an explicit heap of buffers addressed by `Nat`
references, and JavaScript `Map` objects as association lists with
insert-or-replace semantics.
-/

namespace Podcast

/-! ## Text splitter (`src/utils/textSplitter.ts`) -/

/-- JavaScript whitespace (`\s`, `trim`) restricted to the ASCII range. -/
def isWsChar (c : Char) : Bool :=
  c = ' ' || c = '\t' || c = '\n' || c = '\r' || c = '\x0b' || c = '\x0c'

/-- Character class of `SENTENCE_ENDINGS = /[.!?]+\s+/g`. -/
def isSentencePunct (c : Char) : Bool :=
  c = '.' || c = '!' || c = '?'

/-- Character class of `FALLBACK_BREAKS = /[,;:\-—]+\s+/g`. -/
def isClausePunct (c : Char) : Bool :=
  c = ',' || c = ';' || c = ':' || c = '-' || c = '—'

/-- Length of the maximal run of characters satisfying `P` at the head. -/
def takeRun (P : Char → Bool) : List Char → Nat
  | [] => 0
  | c :: cs => if P c then takeRun P cs + 1 else 0

/-- JavaScript `String.prototype.trim` on a character list. -/
def jsTrim (l : List Char) : List Char :=
  ((l.dropWhile isWsChar).reverse.dropWhile isWsChar).reverse

theorem length_dropWhile_le (P : Char → Bool) (l : List Char) :
    (l.dropWhile P).length ≤ l.length := by
  induction l with
  | nil => simp
  | cons c cs ih =>
    by_cases h : P c
    · rw [List.dropWhile_cons_of_pos h]; simp only [List.length_cons]; omega
    · rw [List.dropWhile_cons_of_neg h]

theorem jsTrim_length_le (l : List Char) : (jsTrim l).length ≤ l.length := by
  simp only [jsTrim, List.length_reverse]
  calc ((l.dropWhile isWsChar).reverse.dropWhile isWsChar).length
      ≤ (l.dropWhile isWsChar).reverse.length := length_dropWhile_le _ _
    _ ≤ l.length := by
        simp only [List.length_reverse]; exact length_dropWhile_le _ _

/-- Drop all whitespace characters (used to state whitespace-insensitive
content equality of the chunker). -/
def removeWs (l : List Char) : List Char :=
  l.filter (fun c => !isWsChar c)

/-- All matches of the regex `[P]+\s+` with the `g` flag, as
`(index, length)` pairs, in reading order (the semantics of
`text.matchAll` for `SENTENCE_ENDINGS` and `FALLBACK_BREAKS`: greedy,
leftmost, non-overlapping). -/
def scanPW (P : Char → Bool) : List Char → List (Nat × Nat)
  | [] => []
  | c :: cs =>
    if P c then
      -- maximal punctuation run has length `takeRun P cs + 1`
      let pr := takeRun P cs + 1
      let rest1 := cs.drop (takeRun P cs)
      let wr := takeRun isWsChar rest1
      if 0 < wr then
        (0, pr + wr) :: (scanPW P (rest1.drop wr)).map (fun m => (m.1 + (pr + wr), m.2))
      else
        (scanPW P rest1).map (fun m => (m.1 + pr, m.2))
    else
      (scanPW P cs).map (fun m => (m.1 + 1, m.2))
termination_by l => l.length
decreasing_by
  all_goals simp only [List.length_drop, List.length_cons]
  all_goals omega

/-- All matches of `WORD_BREAKS = /\s+/g`, as `(index, length)` pairs. -/
def scanWs : List Char → List (Nat × Nat)
  | [] => []
  | c :: cs =>
    if isWsChar c then
      let wr := takeRun isWsChar cs + 1
      (0, wr) :: (scanWs (cs.drop (takeRun isWsChar cs))).map (fun m => (m.1 + wr, m.2))
    else
      (scanWs cs).map (fun m => (m.1 + 1, m.2))
termination_by l => l.length
decreasing_by
  all_goals simp only [List.length_drop, List.length_cons]
  all_goals omega

/-- `findBestSplitPoint` from `textSplitter.ts`: index of the end of the
last sentence-ending match, else of the last clause-break match, else
`-1` (the JavaScript sentinel). -/
def findBestSplitPoint (text : List Char) : Int :=
  match (scanPW isSentencePunct text).getLast? with
  | some m => (m.1 : Int) + m.2 - 1
  | none =>
    match (scanPW isClausePunct text).getLast? with
    | some m => (m.1 : Int) + m.2 - 1
    | none => -1

/-- `findLastWordBoundary` from `textSplitter.ts`: one before the index of
the last whitespace run, else `-1`. -/
def findLastWordBoundary (text : List Char) : Int :=
  match (scanWs text).getLast? with
  | some m => (m.1 : Int) - 1
  | none => -1

/-- The split point chosen by one iteration of `splitTextForTTS`'s loop:
`findBestSplitPoint`, falling back to `findLastWordBoundary`, falling
back to a hard cut at `maxLength - 1` (each fallback is taken exactly
when the previous stage returned the JavaScript sentinel `-1`). -/
def chosenSplit (maxLength : Nat) (chunk : List Char) : Nat :=
  let sp1 := findBestSplitPoint chunk
  let sp2 := if sp1 = -1 then findLastWordBoundary chunk else sp1
  let sp3 := if sp2 = -1 then (maxLength : Int) - 1 else sp2
  sp3.toNat

/-- The `while` loop of `splitTextForTTS` over the remaining text. -/
def splitLoop (maxLength : Nat) (remaining : List Char) : List (List Char) :=
  if remaining.length = 0 then []
  else if remaining.length ≤ maxLength then [remaining]
  else
    let p := chosenSplit maxLength (remaining.take maxLength)
    let actualChunk := jsTrim (remaining.take (p + 1))
    let rest := jsTrim (remaining.drop (p + 1))
    (if 0 < actualChunk.length then [actualChunk] else []) ++ splitLoop maxLength rest
termination_by remaining.length
decreasing_by
  calc (jsTrim (remaining.drop (p + 1))).length
      ≤ (remaining.drop (p + 1)).length := jsTrim_length_le _
    _ < remaining.length := by simp only [List.length_drop]; omega

/-- `splitTextForTTS` from `textSplitter.ts`. -/
def splitTextForTTS (text : List Char) (maxLength : Nat) : List (List Char) :=
  if text.length ≤ maxLength then [text]
  else (splitLoop maxLength (jsTrim text)).filter (fun c => 0 < c.length)

/-! ### Lemmas about the scanners -/

theorem takeRun_le (P : Char → Bool) (l : List Char) : takeRun P l ≤ l.length := by
  induction l with
  | nil => simp [takeRun]
  | cons c cs ih =>
    by_cases h : P c
    · simp only [takeRun, h, if_true, List.length_cons]; omega
    · simp [takeRun, h]

theorem takeRun_sound (P : Char → Bool) (l : List Char) :
    ∀ j, j < takeRun P l → P (l.getD j 'x') = true := by
  induction l with
  | nil => simp [takeRun]
  | cons c cs ih =>
    intro j hj
    by_cases h : P c
    · cases j with
      | zero => simpa using h
      | succ k =>
        simp only [takeRun, h, if_true] at hj
        simpa using ih k (by omega)
    · simp [takeRun, h] at hj

theorem getD_drop (l : List Char) (n j : Nat) (d : Char) :
    (l.drop n).getD j d = l.getD (n + j) d := by
  induction l generalizing n with
  | nil => simp
  | cons c cs ih =>
    cases n with
    | zero => simp
    | succ k =>
      simp only [List.drop_succ_cons]
      rw [ih k]
      simp [Nat.succ_add]

theorem getD_take (l : List Char) (n j : Nat) (d : Char) (h : j < n) :
    (l.take n).getD j d = l.getD j d := by
  simp [List.getD_eq_getElem?_getD, List.getElem?_take_of_lt h]

theorem getD_cons_succ' (c : Char) (cs : List Char) (n : Nat) (d : Char) :
    (c :: cs).getD (n + 1) d = cs.getD n d := by
  simp [List.getD_eq_getElem?_getD]

/-- A well-formed match: at least one punctuation character plus at least
one whitespace character, inside the text, starting with a `P` character
and ending with whitespace. -/
def MatchOk (P : Char → Bool) (l : List Char) (m : Nat × Nat) : Prop :=
  2 ≤ m.2 ∧ m.1 + m.2 ≤ l.length ∧
    P (l.getD m.1 'x') = true ∧
    isWsChar (l.getD (m.1 + m.2 - 1) 'x') = true

theorem MatchOk_shift (P : Char → Bool) (l : List Char) (k : Nat) (m : Nat × Nat)
    (h : MatchOk P (l.drop k) m) : MatchOk P l (m.1 + k, m.2) := by
  obtain ⟨ha, hb, hc, hd⟩ := h
  rw [List.length_drop] at hb
  rw [getD_drop] at hc hd
  refine ⟨ha, by omega, ?_, ?_⟩
  · rw [show m.1 + k = k + m.1 from by omega]
    exact hc
  · rw [show m.1 + k + m.2 - 1 = k + (m.1 + m.2 - 1) from by omega]
    exact hd

/-- Every match reported by `scanPW P` is well formed. -/
theorem scanPW_mem (P : Char → Bool) (l : List Char) :
    ∀ m ∈ scanPW P l, MatchOk P l m := by
  induction l using scanPW.induct P with
  | case1 => simp [scanPW]
  | case2 c cs hP rest1 wr hwr ih =>
    have hwr' : 0 < takeRun isWsChar (cs.drop (takeRun P cs)) := hwr
    have ih' : ∀ m ∈ scanPW P
        ((cs.drop (takeRun P cs)).drop (takeRun isWsChar (cs.drop (takeRun P cs)))),
        MatchOk P
          ((c :: cs).drop (takeRun P cs + 1 + takeRun isWsChar (cs.drop (takeRun P cs)))) m := by
      intro m hm
      have e : (c :: cs).drop (takeRun P cs + 1 + takeRun isWsChar (cs.drop (takeRun P cs)))
          = (cs.drop (takeRun P cs)).drop (takeRun isWsChar (cs.drop (takeRun P cs))) := by
        rw [show takeRun P cs + 1 + takeRun isWsChar (cs.drop (takeRun P cs))
            = (takeRun isWsChar (cs.drop (takeRun P cs)) + takeRun P cs) + 1 from by omega,
          List.drop_succ_cons, List.drop_drop, Nat.add_comm]
      rw [e]
      exact ih m hm
    intro m hm
    rw [scanPW] at hm
    simp only [hP, if_true] at hm
    rw [if_pos hwr'] at hm
    rcases List.mem_cons.mp hm with rfl | hm'
    · have h1 := takeRun_le P cs
      have h2 := takeRun_le isWsChar (cs.drop (takeRun P cs))
      rw [List.length_drop] at h2
      refine ⟨by omega, ?_, by simpa using hP, ?_⟩
      · simp only [List.length_cons]; omega
      · have hws := takeRun_sound isWsChar (cs.drop (takeRun P cs))
          (takeRun isWsChar (cs.drop (takeRun P cs)) - 1) (by omega)
        rw [getD_drop] at hws
        rw [show (0 : Nat) + (takeRun P cs + 1 + takeRun isWsChar (cs.drop (takeRun P cs))) - 1
            = (takeRun P cs + (takeRun isWsChar (cs.drop (takeRun P cs)) - 1)) + 1 from by omega,
          getD_cons_succ']
        exact hws
    · obtain ⟨m', hm'mem, rfl⟩ := List.mem_map.mp hm'
      exact MatchOk_shift P (c :: cs) _ m' (ih' m' hm'mem)
  | case3 c cs hP rest1 wr hwr ih =>
    have ih' : ∀ m ∈ scanPW P (cs.drop (takeRun P cs)),
        MatchOk P ((c :: cs).drop (takeRun P cs + 1)) m := by
      intro m hm
      rw [List.drop_succ_cons]
      exact ih m hm
    intro m hm
    rw [scanPW] at hm
    simp only [hP, if_true] at hm
    rw [if_neg (by exact hwr)] at hm
    obtain ⟨m', hm'mem, rfl⟩ := List.mem_map.mp hm
    exact MatchOk_shift P (c :: cs) _ m' (ih' m' hm'mem)
  | case4 c cs hP ih =>
    intro m hm
    rw [scanPW] at hm
    simp only [hP, if_false] at hm
    obtain ⟨m', hm'mem, rfl⟩ := List.mem_map.mp hm
    have ih' : MatchOk P ((c :: cs).drop 1) m' := by
      rw [List.drop_succ_cons, List.drop_zero]
      exact ih m' hm'mem
    exact MatchOk_shift P (c :: cs) 1 m' ih'

/-- Every match reported by `scanWs` is nonempty and inside the text. -/
theorem scanWs_mem (l : List Char) :
    ∀ m ∈ scanWs l, 1 ≤ m.2 ∧ m.1 + m.2 ≤ l.length := by
  induction l using scanWs.induct with
  | case1 => simp [scanWs]
  | case2 c cs hws ih =>
    intro m hm
    rw [scanWs] at hm
    simp only [hws, if_true] at hm
    rcases List.mem_cons.mp hm with rfl | hm'
    · have h1 := takeRun_le isWsChar cs
      exact ⟨by omega, by simp only [List.length_cons]; omega⟩
    · obtain ⟨m', hmm, rfl⟩ := List.mem_map.mp hm'
      obtain ⟨ha, hb⟩ := ih m' hmm
      rw [List.length_drop] at hb
      have h1 := takeRun_le isWsChar cs
      refine ⟨ha, ?_⟩
      show m'.1 + (takeRun isWsChar cs + 1) + m'.2 ≤ (c :: cs).length
      simp only [List.length_cons]
      omega
  | case3 c cs hws ih =>
    intro m hm
    rw [scanWs] at hm
    simp only [hws, if_false] at hm
    obtain ⟨m', hmm, rfl⟩ := List.mem_map.mp hm
    obtain ⟨ha, hb⟩ := ih m' hmm
    refine ⟨ha, ?_⟩
    show m'.1 + 1 + m'.2 ≤ (c :: cs).length
    simp only [List.length_cons]
    omega

/-- The chosen split point always lies strictly inside the window. -/
theorem chosenSplit_lt (maxLength : Nat) (chunk : List Char)
    (h1 : 1 ≤ maxLength) (hc : chunk.length ≤ maxLength) :
    chosenSplit maxLength chunk < maxLength := by
  unfold chosenSplit
  cases hS : (scanPW isSentencePunct chunk).getLast? with
  | some m =>
    obtain ⟨ha, hb, -, -⟩ := scanPW_mem isSentencePunct chunk m (List.mem_of_getLast?_eq_some hS)
    simp only [findBestSplitPoint, hS]
    split_ifs <;> omega
  | none =>
    cases hC : (scanPW isClausePunct chunk).getLast? with
    | some m =>
      obtain ⟨ha, hb, -, -⟩ := scanPW_mem isClausePunct chunk m (List.mem_of_getLast?_eq_some hC)
      simp only [findBestSplitPoint, hS, hC]
      split_ifs <;> omega
    | none =>
      simp only [findBestSplitPoint, hS, hC]
      cases hW : (scanWs chunk).getLast? with
      | some m =>
        obtain ⟨ha, hb⟩ := scanWs_mem chunk m (List.mem_of_getLast?_eq_some hW)
        simp only [findLastWordBoundary, hW]
        split_ifs <;> omega
      | none =>
        simp only [findLastWordBoundary, hW]
        split_ifs <;> omega

/-- When a sentence-ending match exists in the window, the chosen split
point is the end of the last such match: neither the clause-break nor
the whitespace fallback is consulted. -/
theorem chosenSplit_sentence (maxLength : Nat) (chunk : List Char) (m : Nat × Nat)
    (hS : (scanPW isSentencePunct chunk).getLast? = some m) :
    chosenSplit maxLength chunk = m.1 + m.2 - 1 := by
  obtain ⟨ha, hb, -, -⟩ := scanPW_mem isSentencePunct chunk m (List.mem_of_getLast?_eq_some hS)
  unfold chosenSplit
  simp only [findBestSplitPoint, hS]
  split_ifs <;> omega

/-! ### Whitespace-insensitive content equality -/

theorem removeWs_append (a b : List Char) :
    removeWs (a ++ b) = removeWs a ++ removeWs b := by
  simp [removeWs]

theorem removeWs_dropWhile (l : List Char) :
    removeWs (l.dropWhile isWsChar) = removeWs l := by
  induction l with
  | nil => rfl
  | cons c cs ih =>
    by_cases h : isWsChar c
    · rw [List.dropWhile_cons_of_pos h, ih]
      simp [removeWs, h]
    · rw [List.dropWhile_cons_of_neg h]

theorem removeWs_reverse (l : List Char) :
    removeWs l.reverse = (removeWs l).reverse := by
  simp [removeWs]

theorem removeWs_jsTrim (l : List Char) : removeWs (jsTrim l) = removeWs l := by
  unfold jsTrim
  rw [removeWs_reverse, removeWs_dropWhile, removeWs_reverse, removeWs_dropWhile,
    List.reverse_reverse]

theorem removeWs_of_jsTrim_nil (l : List Char) (h : jsTrim l = []) :
    removeWs l = [] := by
  rw [← removeWs_jsTrim, h]
  rfl

/-! ### Main chunker lemmas -/

/-- Every chunk produced by the loop fits in the length limit. -/
theorem splitLoop_length_le (maxLength : Nat) (h1 : 1 ≤ maxLength) (r : List Char) :
    ∀ c ∈ splitLoop maxLength r, c.length ≤ maxLength := by
  induction r using splitLoop.induct maxLength with
  | case1 r h0 =>
    rw [splitLoop, if_pos h0]
    simp
  | case2 r h0 hle =>
    rw [splitLoop, if_neg h0, if_pos (by omega)]
    intro c hc
    simp only [List.mem_singleton] at hc
    subst hc
    omega
  | case3 r h0 hle p rest ih =>
    have ih' : ∀ c ∈ splitLoop maxLength
        (jsTrim (r.drop (chosenSplit maxLength (r.take maxLength) + 1))), c.length ≤ maxLength := ih
    intro c hc
    rw [splitLoop, if_neg h0, if_neg hle] at hc
    have hp : chosenSplit maxLength (r.take maxLength) < maxLength := by
      refine chosenSplit_lt maxLength (r.take maxLength) h1 ?_
      rw [List.length_take]
      omega
    rcases List.mem_append.mp hc with h | h
    · by_cases hne : 0 < (jsTrim (r.take (chosenSplit maxLength (r.take maxLength) + 1))).length
      · rw [if_pos hne] at h
        simp only [List.mem_singleton] at h
        subst h
        calc (jsTrim (r.take (chosenSplit maxLength (r.take maxLength) + 1))).length
            ≤ (r.take (chosenSplit maxLength (r.take maxLength) + 1)).length :=
              jsTrim_length_le _
          _ ≤ maxLength := by rw [List.length_take]; omega
      · rw [if_neg hne] at h
        simp at h
    · exact ih' c h

/-- Flattening the loop's chunks preserves the non-whitespace content. -/
theorem splitLoop_flatten (maxLength : Nat) (r : List Char) :
    removeWs (splitLoop maxLength r).flatten = removeWs r := by
  induction r using splitLoop.induct maxLength with
  | case1 r h0 =>
    rw [splitLoop, if_pos h0, List.length_eq_zero.mp h0]
    rfl
  | case2 r h0 hle =>
    rw [splitLoop, if_neg h0, if_pos (by omega)]
    simp
  | case3 r h0 hle p rest ih =>
    have ih' : removeWs (splitLoop maxLength
          (jsTrim (r.drop (chosenSplit maxLength (r.take maxLength) + 1)))).flatten
        = removeWs (jsTrim (r.drop (chosenSplit maxLength (r.take maxLength) + 1))) := ih
    rw [splitLoop, if_neg h0, if_neg hle]
    rw [List.flatten_append, removeWs_append, ih', removeWs_jsTrim]
    by_cases hne : 0 < (jsTrim (r.take (chosenSplit maxLength (r.take maxLength) + 1))).length
    · rw [if_pos hne]
      have : ([jsTrim (r.take (chosenSplit maxLength (r.take maxLength) + 1))]).flatten
          = jsTrim (r.take (chosenSplit maxLength (r.take maxLength) + 1)) := by simp
      rw [this, removeWs_jsTrim, ← removeWs_append, List.take_append_drop]
    · rw [if_neg hne]
      have hnil : jsTrim (r.take (chosenSplit maxLength (r.take maxLength) + 1)) = [] := by
        cases hj : jsTrim (r.take (chosenSplit maxLength (r.take maxLength) + 1)) with
        | nil => rfl
        | cons a as => rw [hj] at hne; simp at hne
      have h2 : removeWs (r.take (chosenSplit maxLength (r.take maxLength) + 1)) = [] :=
        removeWs_of_jsTrim_nil _ hnil
      have h3 : removeWs r = removeWs (r.drop (chosenSplit maxLength (r.take maxLength) + 1)) := by
        conv_lhs => rw [← List.take_append_drop (chosenSplit maxLength (r.take maxLength) + 1) r]
        rw [removeWs_append, h2]
        rfl
      rw [h3]
      rfl

theorem flatten_filter_pos (L : List (List Char)) :
    (L.filter (fun c => 0 < c.length)).flatten = L.flatten := by
  induction L with
  | nil => rfl
  | cons a as ih =>
    by_cases h : 0 < a.length
    · rw [List.filter_cons_of_pos (by simpa using h)]
      simp only [List.flatten_cons, ih]
    · rw [List.filter_cons_of_neg (by simpa using h)]
      have ha : a = [] := by
        cases a with
        | nil => rfl
        | cons x xs => simp at h
      rw [ha, ih, List.flatten_cons, List.nil_append]

/-- Decidable form of the chunk-size bound of `splitTextForTTS`. -/
def chunksWithinLimit (text : List Char) (maxLength : Nat) : Bool :=
  (splitTextForTTS text maxLength).all (fun c => decide (c.length ≤ maxLength))

theorem sentencePunct_not_ws (c : Char) (h : isSentencePunct c = true) :
    isWsChar c = false := by
  rcases Bool.or_eq_true_iff.mp h with h' | h'
  · rcases Bool.or_eq_true_iff.mp h' with h'' | h''
    · rw [decide_eq_true_eq.mp h'']; rfl
    · rw [decide_eq_true_eq.mp h'']; rfl
  · rw [decide_eq_true_eq.mp h']; rfl

theorem removeWs_ne_nil_of_getD (l : List Char) (i : Nat) (hi : i < l.length)
    (h : isWsChar (l.getD i 'x') = false) : removeWs l ≠ [] := by
  intro hnil
  have hall := List.filter_eq_nil_iff.mp hnil
  have hmem : l.getD i 'x' ∈ l := by
    rw [List.getD_eq_getElem?_getD, List.getElem?_eq_getElem hi]
    exact List.getElem_mem hi
  have := hall _ hmem
  simp only [Bool.not_eq_true'] at this
  rw [h] at this
  simp at this

/-- C2: for every string and every positive limit, every chunk returned by
`splitTextForTTS` has length at most the limit, and concatenating the
chunks in reading order (ignoring the whitespace trimmed at chunk
boundaries) reproduces the input's content losslessly. -/
theorem splitTextForTTS_spec (text : List Char) (maxLength : Nat) (h1 : 1 ≤ maxLength) :
    chunksWithinLimit text maxLength = true ∧
    removeWs (splitTextForTTS text maxLength).flatten = removeWs text := by
  constructor
  · rw [chunksWithinLimit, List.all_eq_true]
    intro c hc
    rw [decide_eq_true_eq]
    unfold splitTextForTTS at hc
    by_cases ht : text.length ≤ maxLength
    · rw [if_pos ht] at hc
      simp only [List.mem_singleton] at hc
      subst hc
      exact ht
    · rw [if_neg ht] at hc
      exact splitLoop_length_le maxLength h1 (jsTrim text) c (List.mem_of_mem_filter hc)
  · unfold splitTextForTTS
    by_cases ht : text.length ≤ maxLength
    · rw [if_pos ht]
      simp
    · rw [if_neg ht]
      rw [flatten_filter_pos, splitLoop_flatten, removeWs_jsTrim]

/-- Witness for C2 at a concrete input. -/
theorem splitTextForTTS_spec_witness :
    chunksWithinLimit "Hi. Goodbye friend".data 10 = true ∧
    removeWs (splitTextForTTS "Hi. Goodbye friend".data 10).flatten =
      removeWs "Hi. Goodbye friend".data :=
  splitTextForTTS_spec "Hi. Goodbye friend".data 10 (by norm_num)

/-- C9: when the cut window (the first `maxLength` characters of the
remaining text) contains a sentence ending, `splitTextForTTS` cuts at the
last such sentence ending: the first chunk is the trimmed window prefix
up to the end of that match, the character at the chosen split position
is whitespace (so the cut is never mid-word), and the split point is
produced by the sentence-ending search alone (clause breaks and plain
whitespace are consulted only when no sentence ending is present). -/
theorem splitTextForTTS_sentence_cut (text : List Char) (maxLength : Nat) (m : Nat × Nat)
    (h1 : 1 ≤ maxLength)
    (hlong : maxLength < (jsTrim text).length)
    (hS : (scanPW isSentencePunct ((jsTrim text).take maxLength)).getLast? = some m) :
    (splitTextForTTS text maxLength).head? =
      some (jsTrim ((jsTrim text).take (m.1 + m.2))) ∧
    isWsChar (((jsTrim text).take maxLength).getD (m.1 + m.2 - 1) 'x') = true ∧
    findBestSplitPoint ((jsTrim text).take maxLength) = (m.1 : Int) + m.2 - 1 := by
  obtain ⟨ha, hb, hcP, hdW⟩ :=
    scanPW_mem isSentencePunct ((jsTrim text).take maxLength) m (List.mem_of_getLast?_eq_some hS)
  have hwl : ((jsTrim text).take maxLength).length = maxLength := by
    rw [List.length_take]; omega
  rw [hwl] at hb
  refine ⟨?_, hdW, by simp [findBestSplitPoint, hS]⟩
  have htext : ¬ text.length ≤ maxLength := by
    have := jsTrim_length_le text
    omega
  unfold splitTextForTTS
  rw [if_neg htext]
  have hp1 : chosenSplit maxLength ((jsTrim text).take maxLength) + 1 = m.1 + m.2 := by
    rw [chosenSplit_sentence maxLength _ m hS]
    omega
  have hne : 0 < (jsTrim ((jsTrim text).take (m.1 + m.2))).length := by
    have hiWin : isWsChar (((jsTrim text).take (m.1 + m.2)).getD m.1 'x') = false := by
      rw [getD_take _ _ _ _ (by omega)]
      rw [getD_take _ _ _ _ (by omega)] at hcP
      exact sentencePunct_not_ws _ hcP
    have hlen : m.1 < ((jsTrim text).take (m.1 + m.2)).length := by
      rw [List.length_take]
      omega
    have hnn := removeWs_ne_nil_of_getD _ m.1 hlen hiWin
    by_contra hz
    push_neg at hz
    have hniltrim : jsTrim ((jsTrim text).take (m.1 + m.2)) = [] := by
      cases hE : jsTrim ((jsTrim text).take (m.1 + m.2)) with
      | nil => rfl
      | cons x xs => rw [hE] at hz; simp at hz
    exact hnn (removeWs_of_jsTrim_nil _ hniltrim)
  rw [splitLoop, if_neg (by omega), if_neg (by omega)]
  simp only []
  rw [hp1, if_pos hne]
  rw [List.singleton_append, List.filter_cons_of_pos (by simpa using hne), List.head?_cons]

unseal scanPW in
/-- Witness for C9 at a concrete input. -/
theorem splitTextForTTS_sentence_cut_witness :
    (splitTextForTTS "Hi. Goodbye friend".data 10).head? =
      some (jsTrim ((jsTrim "Hi. Goodbye friend".data).take (2 + 2))) ∧
    isWsChar (((jsTrim "Hi. Goodbye friend".data).take 10).getD (2 + 2 - 1) 'x') = true ∧
    findBestSplitPoint ((jsTrim "Hi. Goodbye friend".data).take 10)
      = ((2 : Nat) : Int) + 2 - 1 :=
  splitTextForTTS_sentence_cut "Hi. Goodbye friend".data 10 (2, 2) (by norm_num)
    (by decide) (by decide)

/-! ## Cache keys (`audioGenerator.ts`: `getCacheKey`, `hashString`) -/

/-- Reduction of an integer to JavaScript's signed 32-bit range (the
effect of bitwise operators such as `<<` and `& `on numbers). -/
def toInt32 (n : Int) : Int :=
  let m := n % 4294967296
  if m < 2147483648 then m else m - 4294967296

/-- One step of `hashString`'s loop:
`hash = ((hash << 5) - hash) + char; hash = hash & hash`. -/
def hashStep (hash : Int) (char : Nat) : Int :=
  toInt32 (toInt32 (hash * 32) - hash + char)

/-- The 32-bit rolling hash value computed by `hashString` (character
codes via `charCodeAt`, which agrees with the code point for the BMP
texts at issue). -/
def hashString32 (s : List Char) : Int :=
  s.foldl (fun hash c => hashStep hash c.toNat) 0

/-- A base-36 digit, as produced by `Number.prototype.toString(36)`. -/
def digit36 (n : Nat) : Char :=
  if n < 10 then Char.ofNat (48 + n) else Char.ofNat (87 + n)

/-- Base-36 rendering of a natural number (`toString(36)`). -/
def natToBase36 (n : Nat) : List Char :=
  if n < 36 then [digit36 n]
  else natToBase36 (n / 36) ++ [digit36 (n % 36)]
termination_by n
decreasing_by exact Nat.div_lt_self (by omega) (by omega)

/-- `hashString` from `audioGenerator.ts`:
`Math.abs(hash).toString(36)`. -/
def hashString (s : List Char) : List Char :=
  natToBase36 (hashString32 s).natAbs

/-- The speaker-role union type `'host' | 'guest1' | 'guest2'`. -/
inductive SegmentType
  | host
  | guest1
  | guest2
deriving DecidableEq

/-- The string form of a role, as interpolated into the cache key. -/
def SegmentType.str : SegmentType → List Char
  | .host => "host".data
  | .guest1 => "guest1".data
  | .guest2 => "guest2".data

/-- `PodcastSegment` from `types.ts`. -/
structure PodcastSegment where
  speaker : List Char
  text : List Char
  type : SegmentType
deriving DecidableEq

/-- `getCacheKey` from `audioGenerator.ts`:
`` `${segment.type}-${segment.text.length}-${model}-${hashString(segment.text)}` ``. -/
def getCacheKey (segment : PodcastSegment) (model : List Char) : List Char :=
  segment.type.str ++ "-".data ++ (toString segment.text.length).data ++ "-".data
    ++ model ++ "-".data ++ hashString segment.text

/-! ## Buffers, the heap, and the audio cache -/

/-- A binary audio payload: a byte sequence. -/
abbrev Bytes := List Nat

/-- An explicit heap of `ArrayBuffer` objects, so that JavaScript
reference identity and aliasing are observable: a reference is an index
into the allocation list. -/
structure Heap where
  bufs : List Bytes
deriving DecidableEq

/-- Allocate a new buffer (`new ArrayBuffer`), returning its reference. -/
def Heap.alloc (h : Heap) (b : Bytes) : Heap × Nat :=
  (⟨h.bufs ++ [b]⟩, h.bufs.length)

/-- Read the bytes a reference currently holds. -/
def Heap.read (h : Heap) (r : Nat) : Bytes :=
  h.bufs.getD r []

/-- Overwrite the bytes behind a reference (what a caller that mutates a
buffer through any `Uint8Array` view does). -/
def Heap.write (h : Heap) (r : Nat) (b : Bytes) : Heap :=
  ⟨h.bufs.set r b⟩

/-- JavaScript `Map.prototype.get` on an insertion-ordered entry list. -/
def jsMapGet {κ α : Type} [DecidableEq κ] (m : List (κ × α)) (k : κ) : Option α :=
  (m.find? (fun e => e.1 = k)).map (fun e => e.2)

/-- JavaScript `Map.prototype.set`: replace in place, else append. -/
def jsMapSet {κ α : Type} [DecidableEq κ] (m : List (κ × α)) (k : κ) (v : α) : List (κ × α) :=
  if (m.find? (fun e => e.1 = k)).isSome then
    m.map (fun e => if e.1 = k then (k, v) else e)
  else m ++ [(k, v)]

/-- The module state of `audioGenerator.ts` relevant to the cache: the
buffer heap plus `audioCache`, which maps a cache key to the heap
reference backing the stored `Uint8Array`. -/
structure TtsState where
  heap : Heap
  audioCache : List (List Char × Nat)
deriving DecidableEq

/-- `generateAudioForSegment` (single-chunk path of the current
`audioGenerator.ts`): on a cache hit, the cached bytes are copied into a
freshly allocated buffer which is returned; on a miss, the synthesized
buffer (`freshAudio`, the oracle for the TTS response) is allocated and
returned, and `audioCache.set(cacheKey, new Uint8Array(audioBuffer))`
stores a view of that very buffer — the cache entry aliases the buffer
handed back to the caller. -/
def generateAudioForSegment (st : TtsState) (segment : PodcastSegment)
    (model : List Char) (freshAudio : Bytes) : TtsState × Nat :=
  let cacheKey := getCacheKey segment model
  match jsMapGet st.audioCache cacheKey with
  | some r =>
    let cachedData := st.heap.read r
    let (h, fresh) := st.heap.alloc cachedData
    (⟨h, st.audioCache⟩, fresh)
  | none =>
    let (h, fresh) := st.heap.alloc freshAudio
    (⟨h, jsMapSet st.audioCache cacheKey fresh⟩, fresh)

/-- `combineAudioBuffers` from `audioGenerator.ts`: zero buffers give
`new ArrayBuffer(0)`; one buffer is copied into a fresh buffer; several
buffers are concatenated into a fresh buffer in order. -/
def combineAudioBuffers (h : Heap) (buffers : List Nat) : Heap × Nat :=
  if buffers.length = 0 then h.alloc []
  else if buffers.length = 1 then h.alloc (h.read (buffers.getD 0 0))
  else h.alloc ((buffers.map h.read).flatten)

/-! ### Map and heap lemmas -/

theorem jsMapSet_cons_ne {κ α : Type} [DecidableEq κ] (e : κ × α) (es : List (κ × α))
    (k : κ) (v : α) (he : e.1 ≠ k) :
    jsMapSet (e :: es) k v = e :: jsMapSet es k v := by
  unfold jsMapSet
  rw [List.find?_cons_of_neg _ (by simpa using he)]
  by_cases hs : (es.find? (fun x => x.1 = k)).isSome
  · rw [if_pos hs, if_pos hs, List.map_cons, if_neg he]
  · rw [if_neg hs, if_neg hs, List.cons_append]

theorem jsMapGet_cons_ne {κ α : Type} [DecidableEq κ] (e : κ × α) (es : List (κ × α))
    (k : κ) (he : e.1 ≠ k) :
    jsMapGet (e :: es) k = jsMapGet es k := by
  unfold jsMapGet
  rw [List.find?_cons_of_neg _ (by simpa using he)]

theorem jsMapGet_set_self {κ α : Type} [DecidableEq κ] (m : List (κ × α)) (k : κ) (v : α) :
    jsMapGet (jsMapSet m k v) k = some v := by
  induction m with
  | nil =>
    simp [jsMapSet, jsMapGet, List.find?]
  | cons e es ih =>
    by_cases he : e.1 = k
    · have hs : ((e :: es).find? (fun x => x.1 = k)).isSome := by
        rw [List.find?_cons_of_pos _ (by simpa using he)]
        rfl
      unfold jsMapSet
      rw [if_pos hs, List.map_cons, if_pos he]
      unfold jsMapGet
      rw [List.find?_cons_of_pos _ (by simp)]
      rfl
    · rw [jsMapSet_cons_ne e es k v he, jsMapGet_cons_ne e _ k he]
      exact ih

theorem jsMapGet_append_single_ne {κ α : Type} [DecidableEq κ] (m : List (κ × α))
    (k k' : κ) (v : α) (hne : k' ≠ k) :
    jsMapGet (m ++ [(k, v)]) k' = jsMapGet m k' := by
  induction m with
  | nil =>
    unfold jsMapGet
    rw [List.nil_append, List.find?_cons_of_neg _ (by simpa using fun h => hne h.symm)]
  | cons e es ih =>
    by_cases he : e.1 = k'
    · unfold jsMapGet
      rw [List.cons_append, List.find?_cons_of_pos _ (by simpa using he),
        List.find?_cons_of_pos _ (by simpa using he)]
    · rw [List.cons_append, jsMapGet_cons_ne e _ k' he, jsMapGet_cons_ne e es k' he]
      exact ih

theorem jsMapGet_map_replace_ne {κ α : Type} [DecidableEq κ] (m : List (κ × α))
    (k k' : κ) (v : α) (hne : k' ≠ k) :
    jsMapGet (m.map (fun e => if e.1 = k then (k, v) else e)) k' = jsMapGet m k' := by
  induction m with
  | nil => rfl
  | cons e es ih =>
    rw [List.map_cons]
    by_cases he : e.1 = k
    · rw [if_pos he]
      rw [jsMapGet_cons_ne (k, v) _ k' (fun h => hne h.symm)]
      rw [jsMapGet_cons_ne e es k' (by rw [he]; exact fun h => hne h.symm)]
      exact ih
    · rw [if_neg he]
      by_cases he' : e.1 = k'
      · unfold jsMapGet
        rw [List.find?_cons_of_pos _ (by simpa using he'),
          List.find?_cons_of_pos _ (by simpa using he')]
      · rw [jsMapGet_cons_ne e _ k' he', jsMapGet_cons_ne e es k' he']
        exact ih

theorem jsMapGet_set_ne {κ α : Type} [DecidableEq κ] (m : List (κ × α)) (k k' : κ) (v : α)
    (hne : k' ≠ k) : jsMapGet (jsMapSet m k v) k' = jsMapGet m k' := by
  unfold jsMapSet
  by_cases hs : (m.find? (fun e => e.1 = k)).isSome
  · rw [if_pos hs]
    exact jsMapGet_map_replace_ne m k k' v hne
  · rw [if_neg hs]
    exact jsMapGet_append_single_ne m k k' v hne

theorem mem_jsMapSet {κ α : Type} [DecidableEq κ] (m : List (κ × α)) (k : κ) (v : α) :
    ∀ e ∈ jsMapSet m k v, e = (k, v) ∨ (e ∈ m ∧ e.1 ≠ k) := by
  unfold jsMapSet
  by_cases hs : (m.find? (fun e => e.1 = k)).isSome
  · rw [if_pos hs]
    intro e he
    obtain ⟨e', he'mem, he'eq⟩ := List.mem_map.mp he
    by_cases h : e'.1 = k
    · rw [if_pos h] at he'eq
      exact Or.inl he'eq.symm
    · rw [if_neg h] at he'eq
      exact Or.inr ⟨he'eq ▸ he'mem, he'eq ▸ h⟩
  · rw [if_neg hs]
    intro e he
    rcases List.mem_append.mp he with h | h
    · by_cases hk : e.1 = k
      · exfalso
        have : (m.find? (fun e => e.1 = k)).isSome := by
          rw [List.find?_isSome]
          exact ⟨e, h, by simpa using hk⟩
        exact hs this
      · exact Or.inr ⟨h, hk⟩
    · simp only [List.mem_singleton] at h
      exact Or.inl h

theorem jsMapGet_some_mem {κ α : Type} [DecidableEq κ] (m : List (κ × α)) (k : κ) (v : α)
    (h : jsMapGet m k = some v) : (k, v) ∈ m := by
  unfold jsMapGet at h
  cases hf : m.find? (fun e => e.1 = k) with
  | none => rw [hf] at h; simp at h
  | some e =>
    rw [hf] at h
    have hv : e.2 = v := by simpa using h
    have hmem := List.mem_of_find?_eq_some hf
    have hp := List.find?_some hf
    simp only [decide_eq_true_eq] at hp
    have he : e = (k, v) := by
      cases e
      simp only at hp hv
      rw [hp, hv]
    rw [← he]
    exact hmem

theorem Heap.read_alloc_self (h : Heap) (b : Bytes) :
    (h.alloc b).1.read (h.alloc b).2 = b := by
  unfold Heap.alloc Heap.read
  simp [List.getD_eq_getElem?_getD, List.getElem?_concat_length]

theorem Heap.read_alloc_lt (h : Heap) (b : Bytes) (r : Nat) (hr : r < h.bufs.length) :
    (h.alloc b).1.read r = h.read r := by
  unfold Heap.alloc Heap.read
  simp only [List.getD_eq_getElem?_getD]
  rw [List.getElem?_append_left hr]

/-! ### Claims about the cache and buffer assembly -/

/-- The C10 scenario, first call: synthesize and cache audio for a
segment whose text is `"Aa"`. -/
def collisionFirst : TtsState × Nat :=
  generateAudioForSegment ⟨⟨[]⟩, []⟩ ⟨"Anna".data, "Aa".data, .host⟩ "tts-1".data [1, 2, 3]

/-- The C10 scenario, second call: request audio for a different segment
whose text is `"BB"`; the synthesis oracle would return `[7, 7, 7]` if it
were consulted. -/
def collisionSecond : TtsState × Nat :=
  generateAudioForSegment collisionFirst.1 ⟨"Bob".data, "BB".data, .host⟩ "tts-1".data [7, 7, 7]

unseal natToBase36 in
set_option maxRecDepth 10000 in
set_option maxHeartbeats 2000000 in
/-- C10: the cache key function is not injective: the texts `"Aa"` and
`"BB"` have the same role, model and text length but different contents,
and their 32-bit rolling hashes collide (both are 2112), so their cache
keys coincide — after caching audio for `"Aa"`, the lookup for `"BB"`
is a hit and returns `"Aa"`'s audio `[1, 2, 3]`, not the `[7, 7, 7]`
that synthesizing `"BB"` would have produced. -/
theorem getCacheKey_not_injective :
    getCacheKey ⟨"Anna".data, "Aa".data, .host⟩ "tts-1".data
      = getCacheKey ⟨"Bob".data, "BB".data, .host⟩ "tts-1".data ∧
    "Aa".data ≠ "BB".data ∧
    "Aa".data.length = "BB".data.length ∧
    hashString32 "Aa".data = 2112 ∧
    hashString32 "BB".data = 2112 ∧
    collisionSecond.1.heap.read collisionSecond.2 = [1, 2, 3] :=
  ⟨rfl, by decide, rfl, rfl, rfl, rfl⟩

/-- The C3 scenario, step 1: a miss-path call (`put`): audio `[1, 2]` is
synthesized, cached, and the buffer is returned to the caller. -/
def putCall : TtsState × Nat :=
  generateAudioForSegment ⟨⟨[]⟩, []⟩ ⟨"Anna".data, "Hi".data, .host⟩ "tts-1".data [1, 2]

/-- The C3 scenario, step 2: the caller mutates the buffer it received
from the miss path (through a `Uint8Array` view), writing `[9, 9]`. -/
def mutatedState : TtsState :=
  ⟨putCall.1.heap.write putCall.2 [9, 9], putCall.1.audioCache⟩

/-- The C3 scenario, step 3: a later `get` (cache hit) for the same
segment. -/
def getAfterMutation : TtsState × Nat :=
  generateAudioForSegment mutatedState ⟨"Anna".data, "Hi".data, .host⟩ "tts-1".data [5, 5]

unseal natToBase36 in
set_option maxRecDepth 10000 in
set_option maxHeartbeats 2000000 in
/-- C3 counterexample: `put` does not store a defensive copy.  The cached
`Uint8Array` view aliases the very buffer returned to the caller on the
miss path, so after the caller mutates that buffer to `[9, 9]`, a
subsequent `get` returns `[9, 9]` instead of the stored `[1, 2]` — the
caller's mutation changed what a subsequent `get` returns, contradicting
the claim. -/
theorem cachePut_aliasing_counterexample :
    putCall.1.heap.read putCall.2 = [1, 2] ∧
    getAfterMutation.1.heap.read getAfterMutation.2 = [9, 9] ∧
    ([9, 9] : Bytes) ≠ [1, 2] :=
  ⟨rfl, rfl, by decide⟩

/-- C3 (amended): a `put` (miss path) followed by a `get` (cache hit)
with no intervening mutation returns a payload byte-for-byte equal to the
stored one at a freshly allocated reference distinct from the buffer the
miss path returned — `get` copies defensively — but `put` itself stores
a view aliasing the returned buffer, so the round trip is only
mutation-safe on the `get` side. -/
theorem cache_roundTrip_amended (st : TtsState) (segment : PodcastSegment) (model : List Char)
    (freshAudio other : Bytes)
    (hmiss : jsMapGet st.audioCache (getCacheKey segment model) = none) :
    (generateAudioForSegment st segment model freshAudio).1.heap.read
        (generateAudioForSegment st segment model freshAudio).2 = freshAudio ∧
    (generateAudioForSegment
          (generateAudioForSegment st segment model freshAudio).1 segment model other).1.heap.read
        (generateAudioForSegment
          (generateAudioForSegment st segment model freshAudio).1 segment model other).2
      = freshAudio ∧
    (generateAudioForSegment
          (generateAudioForSegment st segment model freshAudio).1 segment model other).2
      ≠ (generateAudioForSegment st segment model freshAudio).2 := by
  have h1 : generateAudioForSegment st segment model freshAudio
      = (⟨(st.heap.alloc freshAudio).1,
          jsMapSet st.audioCache (getCacheKey segment model) (st.heap.alloc freshAudio).2⟩,
         (st.heap.alloc freshAudio).2) := by
    unfold generateAudioForSegment
    dsimp only
    rw [hmiss]
  have hhit : jsMapGet (jsMapSet st.audioCache (getCacheKey segment model)
        (st.heap.alloc freshAudio).2) (getCacheKey segment model)
      = some (st.heap.alloc freshAudio).2 :=
    jsMapGet_set_self _ _ _
  have h2 : generateAudioForSegment (generateAudioForSegment st segment model freshAudio).1
        segment model other
      = (⟨((st.heap.alloc freshAudio).1.alloc
            ((st.heap.alloc freshAudio).1.read (st.heap.alloc freshAudio).2)).1,
          jsMapSet st.audioCache (getCacheKey segment model) (st.heap.alloc freshAudio).2⟩,
         ((st.heap.alloc freshAudio).1.alloc
            ((st.heap.alloc freshAudio).1.read (st.heap.alloc freshAudio).2)).2) := by
    rw [h1]
    unfold generateAudioForSegment
    dsimp only
    rw [hhit]
  refine ⟨?_, ?_, ?_⟩
  · rw [h1]
    exact Heap.read_alloc_self st.heap freshAudio
  · rw [h2]
    have := Heap.read_alloc_self (st.heap.alloc freshAudio).1
      ((st.heap.alloc freshAudio).1.read (st.heap.alloc freshAudio).2)
    dsimp only at this ⊢
    rw [this]
    exact Heap.read_alloc_self st.heap freshAudio
  · rw [h2, h1]
    unfold Heap.alloc
    simp only [List.length_append, List.length_cons, List.length_nil]
    omega

unseal natToBase36 in
set_option maxRecDepth 10000 in
set_option maxHeartbeats 2000000 in
/-- Witness for the amended C3 round trip at a concrete input. -/
theorem cache_roundTrip_amended_witness :
    (generateAudioForSegment ⟨⟨[]⟩, []⟩ ⟨"Anna".data, "Hi".data, .host⟩ "tts-1".data
          [1, 2]).1.heap.read
        (generateAudioForSegment ⟨⟨[]⟩, []⟩ ⟨"Anna".data, "Hi".data, .host⟩ "tts-1".data
          [1, 2]).2 = [1, 2] ∧
    (generateAudioForSegment
          (generateAudioForSegment ⟨⟨[]⟩, []⟩ ⟨"Anna".data, "Hi".data, .host⟩ "tts-1".data
            [1, 2]).1 ⟨"Anna".data, "Hi".data, .host⟩ "tts-1".data [5, 5]).1.heap.read
        (generateAudioForSegment
          (generateAudioForSegment ⟨⟨[]⟩, []⟩ ⟨"Anna".data, "Hi".data, .host⟩ "tts-1".data
            [1, 2]).1 ⟨"Anna".data, "Hi".data, .host⟩ "tts-1".data [5, 5]).2
      = [1, 2] ∧
    (generateAudioForSegment
          (generateAudioForSegment ⟨⟨[]⟩, []⟩ ⟨"Anna".data, "Hi".data, .host⟩ "tts-1".data
            [1, 2]).1 ⟨"Anna".data, "Hi".data, .host⟩ "tts-1".data [5, 5]).2
      ≠ (generateAudioForSegment ⟨⟨[]⟩, []⟩ ⟨"Anna".data, "Hi".data, .host⟩ "tts-1".data
          [1, 2]).2 :=
  cache_roundTrip_amended ⟨⟨[]⟩, []⟩ ⟨"Anna".data, "Hi".data, .host⟩ "tts-1".data
    [1, 2] [5, 5] rfl

/-- C7: `combineAudioBuffers` returns a freshly allocated buffer whose
content is the inputs concatenated in order and whose length is the sum
of the input lengths; the empty input list yields the empty buffer and a
single input yields an equal-but-not-identical copy (the returned
reference is the fresh allocation, distinct from every valid input
reference). -/
theorem combineAudioBuffers_spec (h : Heap) (buffers : List Nat)
    (hv : buffers.all (fun r => decide (r < h.bufs.length)) = true) :
    (combineAudioBuffers h buffers).1.read (combineAudioBuffers h buffers).2
      = (buffers.map h.read).flatten ∧
    ((combineAudioBuffers h buffers).1.read (combineAudioBuffers h buffers).2).length
      = (buffers.map (fun r => (h.read r).length)).sum ∧
    (combineAudioBuffers h buffers).2 = h.bufs.length ∧
    buffers.all (fun r => (combineAudioBuffers h buffers).2 != r) = true := by
  rw [List.all_eq_true] at hv
  have href : (combineAudioBuffers h buffers).2 = h.bufs.length := by
    unfold combineAudioBuffers
    split_ifs <;> rfl
  have hcontent : (combineAudioBuffers h buffers).1.read (combineAudioBuffers h buffers).2
      = (buffers.map h.read).flatten := by
    match buffers with
    | [] =>
      unfold combineAudioBuffers
      norm_num
      rw [Heap.read_alloc_self]
    | [b] =>
      unfold combineAudioBuffers
      norm_num
      rw [Heap.read_alloc_self]
    | b₁ :: b₂ :: rest =>
      unfold combineAudioBuffers
      norm_num
      rw [Heap.read_alloc_self]
  refine ⟨hcontent, ?_, href, ?_⟩
  · rw [hcontent, List.length_flatten, List.map_map]
    rfl
  · rw [List.all_eq_true]
    intro r hr
    have := hv r hr
    rw [decide_eq_true_eq] at this
    rw [href]
    simpa using Nat.ne_of_gt this

/-- Witness for C7 at a concrete heap and input list. -/
theorem combineAudioBuffers_spec_witness :
    (combineAudioBuffers ⟨[[1, 2], [3]]⟩ [0, 1]).1.read
        (combineAudioBuffers ⟨[[1, 2], [3]]⟩ [0, 1]).2
      = (([0, 1] : List Nat).map (Heap.read ⟨[[1, 2], [3]]⟩)).flatten ∧
    ((combineAudioBuffers ⟨[[1, 2], [3]]⟩ [0, 1]).1.read
        (combineAudioBuffers ⟨[[1, 2], [3]]⟩ [0, 1]).2).length
      = (([0, 1] : List Nat).map
          (fun r => ((Heap.read ⟨[[1, 2], [3]]⟩) r).length)).sum ∧
    (combineAudioBuffers ⟨[[1, 2], [3]]⟩ [0, 1]).2 = (Heap.bufs ⟨[[1, 2], [3]]⟩).length ∧
    ([0, 1] : List Nat).all
        (fun r => (combineAudioBuffers ⟨[[1, 2], [3]]⟩ [0, 1]).2 != r) = true :=
  combineAudioBuffers_spec ⟨[[1, 2], [3]]⟩ [0, 1] (by decide)

/-! ## Voice assignment (`audioGenerator.ts`: `VOICE_PROFILES`,
`calculateVoiceCompatibility`, `assignVoiceForPersona`) -/

/-- The gender union type `'male' | 'female'`. -/
inductive Gender
  | male
  | female
deriving DecidableEq

/-- One entry of `VOICE_PROFILES` (the `characteristics` object is
flattened into the structure). -/
structure VoiceProfile where
  gender : Gender
  tone : List String
  style : List String
  ageRange : List String
  personality : List String
deriving DecidableEq

/-- The static voice catalog, in `Object.entries` (insertion) order. -/
def VOICE_PROFILES : List (String × VoiceProfile) := [
  ("echo", ⟨Gender.male, ["authoritative", "professional", "calm"],
    ["formal", "academic", "journalistic"], ["30-40", "40-50"],
    ["analytical", "serious", "knowledgeable"]⟩),
  ("onyx", ⟨Gender.male, ["warm", "friendly", "calm"],
    ["conversational", "casual"], ["25-35", "30-40"],
    ["approachable", "enthusiastic", "engaging"]⟩),
  ("fable", ⟨Gender.male, ["energetic", "professional"],
    ["journalistic", "conversational"], ["25-35", "30-40"],
    ["dynamic", "confident", "articulate"]⟩),
  ("alloy", ⟨Gender.female, ["professional", "friendly", "calm"],
    ["formal", "conversational"], ["30-40", "35-45"],
    ["composed", "trustworthy", "reliable"]⟩),
  ("nova", ⟨Gender.female, ["energetic", "warm", "friendly"],
    ["conversational", "casual"], ["25-35", "30-40"],
    ["vibrant", "passionate", "expressive"]⟩),
  ("shimmer", ⟨Gender.female, ["calm", "professional", "warm"],
    ["formal", "academic"], ["35-45", "40-50"],
    ["mature", "balanced", "thoughtful"]⟩)]

/-- `PersonaDetail` from `types.ts`, with `voiceCharacteristics`
flattened into `tone`, `style` and `pace`. -/
structure PersonaDetail where
  name : String
  gender : Gender
  ageRange : String
  personality : List String
  background : String
  expertise : List String
  tone : String
  style : String
  pace : String
deriving DecidableEq

/-- The second parameter of `assignVoiceForPersona`:
`PersonaCollection | Record<string, boolean>`.  The constructor mirrors
the dynamic dispatch `!('host' in personas) || typeof personas.host ===
'boolean'`: a `Record<string, boolean>` always lands in gender-map mode
and a well-typed `PersonaCollection` (whose `host` field is an object)
always lands in persona mode. -/
inductive Personas
  | genderMap (m : List (String × Bool))
  | personaMap (m : List (String × PersonaDetail))

/-- Occurrence of `needle` as a contiguous sublist of the second list. -/
def isSubstr (needle : List Char) : List Char → Bool
  | [] => needle.isEmpty
  | c :: cs => needle.isPrefixOf (c :: cs) || isSubstr needle cs

/-- JavaScript `a.includes(b)` on strings. -/
def strIncludes (a b : String) : Bool :=
  isSubstr b.data a.data

/-- `calculateVoiceCompatibility` from `audioGenerator.ts`: gender
mismatch scores 0 outright; otherwise 40 for tone, 30 for style, 20 for
age range and 10 for a fuzzy (case-insensitive substring, either
direction) personality match. -/
def calculateVoiceCompatibility (persona : PersonaDetail) (voiceProfile : VoiceProfile) : Nat :=
  if persona.gender ≠ voiceProfile.gender then 0
  else
    (if voiceProfile.tone.contains persona.tone then 40 else 0) +
    (if voiceProfile.style.contains persona.style then 30 else 0) +
    (if voiceProfile.ageRange.any
        (fun range => range == persona.ageRange || persona.ageRange == range) then 20 else 0) +
    (if persona.personality.any (fun trait =>
        voiceProfile.personality.any (fun voiceTrait =>
          strIncludes trait.toLower voiceTrait.toLower ||
          strIncludes voiceTrait.toLower trait.toLower)) then 10 else 0)

/-- The male voice list `['echo', 'onyx', 'fable']`. -/
def maleVoices : List String := ["echo", "onyx", "fable"]

/-- The female voice list `['alloy', 'nova', 'shimmer']`. -/
def femaleVoices : List String := ["alloy", "nova", "shimmer"]

/-- The module-level `voiceAssignments` map: role type to voice id. -/
abbrev VoiceTable := List (String × String)

/-- `voiceScores` of the persona branch: a compatibility score for every
catalog voice, in catalog order. -/
def voiceScoresFor (persona : PersonaDetail) : List (String × Nat) :=
  VOICE_PROFILES.map (fun e => (e.1, calculateVoiceCompatibility persona e.2))

/-- `compatibleVoices`: the voices whose score is strictly positive. -/
def compatibleVoicesFor (persona : PersonaDetail) : List (String × Nat) :=
  (voiceScoresFor persona).filter (fun v => 0 < v.2)

/-- The sort comparator of the persona branch, as a `mergeSort`
less-or-equal predicate (`cmp(a,b) <= 0`): unused voices come first, then
higher scores. -/
def sortComparator (usedVoices : List String) (a b : String × Nat) : Bool :=
  if usedVoices.contains a.1 ≠ usedVoices.contains b.1 then !usedVoices.contains a.1
  else b.2 ≤ a.2

/-- `compatibleVoices.sort(...)[0].voice` - the best-scoring voice after
the stable sort preferring unused voices. -/
def bestVoiceFor (persona : PersonaDetail) (usedVoices : List String) : String :=
  (((compatibleVoicesFor persona).mergeSort (sortComparator usedVoices)).headD ("onyx", 0)).1

/-- `assignVoiceForPersona` from `audioGenerator.ts`, with the module
`voiceAssignments` map passed and returned explicitly. -/
def assignVoiceForPersona (type : String) (personas : Personas)
    (voiceAssignments : VoiceTable) : String × VoiceTable :=
  match jsMapGet voiceAssignments type with
  | some v => (v, voiceAssignments)
  | none =>
    match personas with
    | Personas.genderMap genderMap =>
      let isMale := (jsMapGet genderMap type).getD false
      let availableVoices := if isMale then maleVoices else femaleVoices
      let usedVoices := voiceAssignments.map (fun e => e.2)
      let unusedVoice := availableVoices.find? (fun voice => !usedVoices.contains voice)
      let assignedVoice :=
        unusedVoice.getD (availableVoices.getD (usedVoices.length % availableVoices.length) "onyx")
      (assignedVoice, jsMapSet voiceAssignments type assignedVoice)
    | Personas.personaMap personaCollection =>
      match jsMapGet personaCollection type with
      | none => ("onyx", jsMapSet voiceAssignments type "onyx")
      | some persona =>
        if (compatibleVoicesFor persona).length = 0 then
          let fallbackVoices :=
            if persona.gender = Gender.male then maleVoices else femaleVoices
          let assignedVoice := fallbackVoices.getD 0 "onyx"
          (assignedVoice, jsMapSet voiceAssignments type assignedVoice)
        else
          let usedVoices := voiceAssignments.map (fun e => e.2)
          let bestVoice := bestVoiceFor persona usedVoices
          (bestVoice, jsMapSet voiceAssignments type bestVoice)

/-- The gender a persona map or gender map indicates for a role, when it
indicates one. -/
def indicatedGender (personas : Personas) (type : String) : Option Gender :=
  match personas with
  | Personas.genderMap m =>
    (jsMapGet m type).map (fun b => if b then Gender.male else Gender.female)
  | Personas.personaMap m => (jsMapGet m type).map (fun p => p.gender)

/-- The catalog gender of a voice id. -/
def voiceGender (v : String) : Option Gender :=
  (jsMapGet VOICE_PROFILES v).map (fun p => p.gender)

/-- Every assignment in the table respects the gender its role's persona
or gender map indicates. -/
def tableGenderConsistent (personas : Personas) (tbl : VoiceTable) : Bool :=
  tbl.all (fun e =>
    match indicatedGender personas e.1 with
    | some g => decide (voiceGender e.2 = some g)
    | none => true)

/-! ### Voice assignment lemmas -/

theorem calcCompat_pos_gender (persona : PersonaDetail) (voiceProfile : VoiceProfile)
    (h : 0 < calculateVoiceCompatibility persona voiceProfile) :
    voiceProfile.gender = persona.gender := by
  by_contra hne
  unfold calculateVoiceCompatibility at h
  rw [if_pos (fun he => hne he.symm)] at h
  exact Nat.lt_irrefl 0 h

theorem voiceGender_catalog : ∀ e ∈ VOICE_PROFILES, voiceGender e.1 = some e.2.gender := by
  decide

theorem maleVoices_gender : ∀ v ∈ maleVoices, voiceGender v = some Gender.male := by
  decide

theorem femaleVoices_gender : ∀ v ∈ femaleVoices, voiceGender v = some Gender.female := by
  decide

theorem tableGenderConsistent_set (personas : Personas) (tbl : VoiceTable) (k v : String)
    (hcons : tableGenderConsistent personas tbl = true)
    (hv : ∀ g, indicatedGender personas k = some g → voiceGender v = some g) :
    tableGenderConsistent personas (jsMapSet tbl k v) = true := by
  rw [tableGenderConsistent, List.all_eq_true]
  intro e he
  rcases mem_jsMapSet tbl k v e he with rfl | ⟨hmem, -⟩
  · cases hg : indicatedGender personas k with
    | none => simp [hg]
    | some g =>
      simp only [hg]
      exact decide_eq_true (hv g hg)
  · exact (List.all_eq_true.mp hcons) e hmem

theorem headD_mem {α : Type} (l : List α) (d : α) (h : l ≠ []) : l.headD d ∈ l := by
  cases l with
  | nil => exact absurd rfl h
  | cons a as => simp

theorem bestVoiceFor_gender (persona : PersonaDetail) (usedVoices : List String)
    (h : (compatibleVoicesFor persona).length ≠ 0) :
    voiceGender (bestVoiceFor persona usedVoices) = some persona.gender := by
  unfold bestVoiceFor
  have hne : (compatibleVoicesFor persona).mergeSort (sortComparator usedVoices) ≠ [] := by
    intro hnil
    have := (List.mergeSort_perm (compatibleVoicesFor persona) (sortComparator usedVoices)).length_eq
    rw [hnil] at this
    exact h this.symm
  have hmem := headD_mem _ (("onyx", 0) : String × Nat) hne
  rw [List.mem_mergeSort] at hmem
  have hfil := List.mem_filter.mp hmem
  obtain ⟨hvs, hpos⟩ := hfil
  obtain ⟨e, hcat, heq⟩ := List.mem_map.mp hvs
  rw [decide_eq_true_eq] at hpos
  rw [← heq] at hpos ⊢
  simp only at hpos ⊢
  have hg := calcCompat_pos_gender persona e.2 hpos
  rw [voiceGender_catalog e hcat, hg]

/-- Structural behavior of `assignVoiceForPersona`: either the role is
memoized (the table is returned untouched and the cached voice is
returned), or the role was unassigned and the result table is the input
table with exactly the returned voice inserted for the role. -/
theorem assignVoiceForPersona_eq (type : String) (p : Personas) (tbl : VoiceTable) :
    (jsMapGet tbl type = some (assignVoiceForPersona type p tbl).1 ∧
      (assignVoiceForPersona type p tbl).2 = tbl) ∨
    (jsMapGet tbl type = none ∧
      (assignVoiceForPersona type p tbl).2
        = jsMapSet tbl type (assignVoiceForPersona type p tbl).1) := by
  cases hm : jsMapGet tbl type with
  | some v =>
    left
    have heq : assignVoiceForPersona type p tbl = (v, tbl) := by
      unfold assignVoiceForPersona
      rw [hm]
    rw [heq]
    exact ⟨rfl, rfl⟩
  | none =>
    right
    refine ⟨rfl, ?_⟩
    unfold assignVoiceForPersona
    rw [hm]
    cases p with
    | genderMap m => rfl
    | personaMap pm =>
      dsimp only
      cases hp : jsMapGet pm type with
      | none => rfl
      | some persona =>
        dsimp only
        by_cases hc : (compatibleVoicesFor persona).length = 0
        · rw [if_pos hc]
        · rw [if_neg hc]

theorem assignVoiceForPersona_get_self (type : String) (p : Personas) (tbl : VoiceTable) :
    jsMapGet (assignVoiceForPersona type p tbl).2 type
      = some (assignVoiceForPersona type p tbl).1 := by
  rcases assignVoiceForPersona_eq type p tbl with ⟨hget, htbl⟩ | ⟨-, htbl⟩
  · rw [htbl]
    exact hget
  · rw [htbl]
    exact jsMapGet_set_self _ _ _

theorem assignVoiceForPersona_preserves (a : String) (p : Personas) (tbl : VoiceTable)
    (r : String) (v : String) (h : jsMapGet tbl r = some v) :
    jsMapGet (assignVoiceForPersona a p tbl).2 r = some v := by
  rcases assignVoiceForPersona_eq a p tbl with ⟨-, htbl⟩ | ⟨hnone, htbl⟩
  · rw [htbl]
    exact h
  · rw [htbl]
    by_cases hr : r = a
    · rw [hr] at h
      rw [h] at hnone
      exact absurd hnone (by simp)
    · rw [jsMapGet_set_ne tbl a r _ hr]
      exact h

theorem assignVoiceForPersona_of_get (type : String) (p : Personas) (tbl : VoiceTable)
    (v : String) (h : jsMapGet tbl type = some v) :
    assignVoiceForPersona type p tbl = (v, tbl) := by
  unfold assignVoiceForPersona
  rw [h]

/-- A sequence of further `assignVoiceForPersona` calls threaded through
the table (the rest of a script session). -/
def runAssignments (calls : List (String × Personas)) (tbl : VoiceTable) : VoiceTable :=
  calls.foldl (fun t c => (assignVoiceForPersona c.1 c.2 t).2) tbl

theorem runAssignments_preserves (calls : List (String × Personas)) (tbl : VoiceTable)
    (r v : String) (h : jsMapGet tbl r = some v) :
    jsMapGet (runAssignments calls tbl) r = some v := by
  induction calls generalizing tbl with
  | nil => exact h
  | cons c cs ih =>
    exact ih _ (assignVoiceForPersona_preserves c.1 c.2 tbl r v h)

/-- C6: voice assignment is stable: once `assignVoiceForPersona` returns
a voice for a role, any second call for that role with the same inputs
in the same session returns the same voice id, no matter which other
roles were assigned in between. -/
theorem assignVoiceForPersona_stable (type : String) (personas : Personas) (tbl : VoiceTable)
    (calls : List (String × Personas)) :
    (assignVoiceForPersona type personas
        (runAssignments calls (assignVoiceForPersona type personas tbl).2)).1
      = (assignVoiceForPersona type personas tbl).1 := by
  have h1 := assignVoiceForPersona_get_self type personas tbl
  have h2 := runAssignments_preserves calls _ type _ h1
  rw [assignVoiceForPersona_of_get type personas _ _ h2]

/-- C5: `assignVoiceForPersona` never returns a voice whose gender
differs from the gender the persona map or gender map indicates for the
role, and it keeps the assignment table gender-consistent: in persona
mode every gender-mismatched voice scores 0 and is filtered out, and the
no-compatible-voice fallback draws from the indicated gender's list. -/
theorem pickVoice_mem (voices used : List String) (hnz : voices ≠ []) :
    (voices.find? (fun voice => !used.contains voice)).getD
      (voices.getD (used.length % voices.length) "onyx") ∈ voices := by
  cases hf : voices.find? (fun voice => !used.contains voice) with
  | some voice =>
    rw [Option.getD_some]
    exact List.mem_of_find?_eq_some hf
  | none =>
    rw [Option.getD_none]
    have hpos : 0 < voices.length := List.length_pos.mpr hnz
    have hlt : used.length % voices.length < voices.length := Nat.mod_lt _ hpos
    rw [List.getD_eq_getElem?_getD, List.getElem?_eq_getElem hlt]
    exact List.getElem_mem hlt

theorem assignVoiceForPersona_gender (type : String) (personas : Personas) (tbl : VoiceTable)
    (g : Gender)
    (hcons : tableGenderConsistent personas tbl = true)
    (hind : indicatedGender personas type = some g) :
    voiceGender (assignVoiceForPersona type personas tbl).1 = some g ∧
    tableGenderConsistent personas (assignVoiceForPersona type personas tbl).2 = true := by
  have hvoice : voiceGender (assignVoiceForPersona type personas tbl).1 = some g := by
    cases hm : jsMapGet tbl type with
    | some v =>
      rw [assignVoiceForPersona_of_get type personas tbl v hm]
      have hmem := jsMapGet_some_mem tbl type v hm
      have hall := (List.all_eq_true.mp hcons) (type, v) hmem
      simp only [hind] at hall
      exact of_decide_eq_true hall
    | none =>
      unfold assignVoiceForPersona
      rw [hm]
      cases personas with
      | genderMap m =>
        simp only [indicatedGender] at hind
        obtain ⟨b, hb, hbg⟩ := Option.map_eq_some'.mp hind
        dsimp only
        rw [hb]
        cases b with
        | true =>
          rw [if_pos rfl] at hbg
          simp only [Option.getD_some]
          rw [if_pos trivial]
          have hmem := pickVoice_mem maleVoices (tbl.map (fun e => e.2))
            (by simp [maleVoices])
          rw [← hbg]
          exact maleVoices_gender _ hmem
        | false =>
          rw [if_neg (by simp)] at hbg
          simp only [Option.getD_some]
          rw [if_neg (by simp)]
          have hmem := pickVoice_mem femaleVoices (tbl.map (fun e => e.2))
            (by simp [femaleVoices])
          rw [← hbg]
          exact femaleVoices_gender _ hmem
      | personaMap pm =>
        simp only [indicatedGender] at hind
        obtain ⟨persona, hp, hpg⟩ := Option.map_eq_some'.mp hind
        dsimp only
        rw [hp]
        dsimp only
        by_cases hc : (compatibleVoicesFor persona).length = 0
        · rw [if_pos hc]
          dsimp only
          cases hg : persona.gender with
          | male =>
            rw [hg] at hpg
            rw [if_pos rfl, ← hpg]
            decide
          | female =>
            rw [hg] at hpg
            rw [if_neg (by decide), ← hpg]
            decide
        · rw [if_neg hc]
          dsimp only
          rw [bestVoiceFor_gender persona _ hc, hpg]
  refine ⟨hvoice, ?_⟩
  rcases assignVoiceForPersona_eq type personas tbl with ⟨-, htbl⟩ | ⟨-, htbl⟩
  · rw [htbl]
    exact hcons
  · rw [htbl]
    refine tableGenderConsistent_set personas tbl type _ hcons ?_
    intro g2 hg2
    rw [hind] at hg2
    cases hg2
    exact hvoice

/-- Witness for C5 at a concrete input. -/
theorem assignVoiceForPersona_gender_witness :
    voiceGender (assignVoiceForPersona "host" (Personas.genderMap [("host", true)]) []).1
      = some Gender.male ∧
    tableGenderConsistent (Personas.genderMap [("host", true)])
      (assignVoiceForPersona "host" (Personas.genderMap [("host", true)]) []).2 = true :=
  assignVoiceForPersona_gender "host" (Personas.genderMap [("host", true)]) [] Gender.male
    rfl rfl

/-! ## Retry with backoff (`AudioDownloadManager.retryWithBackoff`) -/

/-- An error thrown by a synthesis attempt: its message and, when the
thrown object carries one, its HTTP `status`. -/
structure TtsError where
  message : String
  status : Option Nat

/-- `TTS_RATE_LIMITING.ERROR_RETRY_DELAY`. -/
def ERROR_RETRY_DELAY : Nat := 5000

/-- `TTS_RATE_LIMITING.RATE_LIMIT_DELAY`. -/
def RATE_LIMIT_DELAY : Nat := 10000

/-- `TTS_RATE_LIMITING.MAX_RETRIES`. -/
def MAX_RETRIES : Nat := 3

/-- The rate-limit classification inside `retryWithBackoff`:
`errorMessage.includes('rate limit') || errorMessage.includes('429') ||
(hasStatusCode && status === 429)`. -/
def isRateLimitError (e : TtsError) : Bool :=
  strIncludes e.message "rate limit" || strIncludes e.message "429" ||
    (match e.status with
     | some s => s == 429
     | none => false)

/-- The class-dependent backoff delay chosen after a failed attempt. -/
def delayFor (e : TtsError) : Nat :=
  if isRateLimitError e then RATE_LIMIT_DELAY else ERROR_RETRY_DELAY

/-- The `while` loop of `retryWithBackoff`.  `op` is the wrapped
operation, indexed by attempt number; the result carries the payload,
the `retries` counter at the time of success and the list of backoff
delays slept, and the error carries the wrapped message. -/
def retryLoop {α : Type} (op : Nat → Except TtsError α) (context : String)
    (maxRetries : Nat) (retries : Nat) : Except String (α × Nat × List Nat) :=
  if retries ≤ maxRetries then
    match op retries with
    | Except.ok v => Except.ok (v, retries, [])
    | Except.error e =>
      if maxRetries < retries + 1 then
        Except.error (context ++ " failed after " ++ toString (maxRetries + 1)
          ++ " attempts: " ++ e.message)
      else
        match retryLoop op context maxRetries (retries + 1) with
        | Except.ok (v, n, ds) => Except.ok (v, n, delayFor e :: ds)
        | Except.error msg => Except.error msg
  else Except.error (context ++ " failed after all retries")
termination_by maxRetries + 1 - retries

/-- `retryWithBackoff` from `audioGenerator.ts` (part of
`AudioDownloadManager`): the loop entered with `retries = 0`. -/
def retryWithBackoff {α : Type} (op : Nat → Except TtsError α) (context : String)
    (maxRetries : Nat) : Except String (α × Nat × List Nat) :=
  retryLoop op context maxRetries 0

theorem retryLoop_exhaust {α : Type} (op : Nat → Except TtsError α) (context : String)
    (maxRetries : Nat) (es : Nat → TtsError)
    (hall : ∀ i, i ≤ maxRetries → op i = Except.error (es i)) :
    ∀ k retries, maxRetries - retries = k → retries ≤ maxRetries →
    retryLoop op context maxRetries retries =
      Except.error (context ++ " failed after " ++ toString (maxRetries + 1)
        ++ " attempts: " ++ (es maxRetries).message) := by
  intro k
  induction k with
  | zero =>
    intro retries hk hle
    have : retries = maxRetries := by omega
    subst this
    rw [retryLoop, if_pos hle, hall retries (by omega)]
    dsimp only
    rw [if_pos (by omega)]
  | succ n ih =>
    intro retries hk hle
    rw [retryLoop, if_pos hle, hall retries hle]
    dsimp only
    rw [if_neg (by omega), ih (retries + 1) (by omega) (by omega)]

/-- C8: the retrying invoker.  (1) If the first attempt fails with a
rate-limit-classified error and the second succeeds, it returns the
successful payload with `retriesUsed = 1`, having slept exactly the
rate-limit backoff delay.  (2) The same with a generic (non-rate-limit)
error sleeps exactly the shorter generic delay, which is strictly
shorter than the rate-limit delay.  (3) When every attempt fails, it
propagates a wrapped error naming the context and the total number of
attempts. -/
theorem retryWithBackoff_spec {α : Type} (op opGeneric opFailing : Nat → Except TtsError α)
    (context : String) (e0 e1 : TtsError) (v w : α) (es : Nat → TtsError)
    (h0 : op 0 = Except.error e0) (hrl : isRateLimitError e0 = true)
    (h1 : op 1 = Except.ok v)
    (g0 : opGeneric 0 = Except.error e1) (hgen : isRateLimitError e1 = false)
    (g1 : opGeneric 1 = Except.ok w)
    (hall : ∀ i, i ≤ MAX_RETRIES → opFailing i = Except.error (es i)) :
    retryWithBackoff op context MAX_RETRIES = Except.ok (v, 1, [RATE_LIMIT_DELAY]) ∧
    retryWithBackoff opGeneric context MAX_RETRIES = Except.ok (w, 1, [ERROR_RETRY_DELAY]) ∧
    ERROR_RETRY_DELAY < RATE_LIMIT_DELAY ∧
    retryWithBackoff opFailing context MAX_RETRIES =
      Except.error (context ++ " failed after " ++ toString (MAX_RETRIES + 1)
        ++ " attempts: " ++ (es MAX_RETRIES).message) := by
  refine ⟨?_, ?_, by decide, ?_⟩
  · unfold retryWithBackoff
    rw [retryLoop, if_pos (by decide), h0]
    dsimp only
    rw [if_neg (by decide), retryLoop, if_pos (by decide), h1]
    dsimp only
    unfold delayFor
    rw [if_pos hrl]
  · unfold retryWithBackoff
    rw [retryLoop, if_pos (by decide), g0]
    dsimp only
    rw [if_neg (by decide), retryLoop, if_pos (by decide), g1]
    dsimp only
    unfold delayFor
    rw [if_neg (by rw [hgen]; exact Bool.false_ne_true)]
  · exact retryLoop_exhaust opFailing context MAX_RETRIES es hall MAX_RETRIES 0 (by decide)
      (by decide)

/-- Witness for C8 at concrete operations. -/
theorem retryWithBackoff_spec_witness :
    retryWithBackoff
        (fun i => if i = 0 then Except.error ⟨"rate limit exceeded", some 429⟩
          else Except.ok (7 : Nat)) "Segment 1 (host)" MAX_RETRIES
      = Except.ok (7, 1, [RATE_LIMIT_DELAY]) ∧
    retryWithBackoff
        (fun i => if i = 0 then Except.error ⟨"network down", none⟩
          else Except.ok (8 : Nat)) "Segment 1 (host)" MAX_RETRIES
      = Except.ok (8, 1, [ERROR_RETRY_DELAY]) ∧
    ERROR_RETRY_DELAY < RATE_LIMIT_DELAY ∧
    retryWithBackoff (fun _ => (Except.error ⟨"boom", none⟩ : Except TtsError Nat))
        "Segment 1 (host)" MAX_RETRIES
      = Except.error ("Segment 1 (host)" ++ " failed after " ++ toString (MAX_RETRIES + 1)
          ++ " attempts: " ++ ((fun _ => (⟨"boom", none⟩ : TtsError)) MAX_RETRIES).message) :=
  retryWithBackoff_spec
    (fun i => if i = 0 then Except.error ⟨"rate limit exceeded", some 429⟩
      else Except.ok (7 : Nat))
    (fun i => if i = 0 then Except.error ⟨"network down", none⟩ else Except.ok (8 : Nat))
    (fun _ => Except.error ⟨"boom", none⟩)
    "Segment 1 (host)" ⟨"rate limit exceeded", some 429⟩ ⟨"network down", none⟩ 7 8
    (fun _ => ⟨"boom", none⟩)
    rfl (by decide) rfl rfl (by decide) rfl (fun i _ => rfl)

/-! ## Download orchestrator (`AudioDownloadManager`) -/

/-- The outcome of `generateSegmentAudio` for one segment: either the
synthesized buffer together with the retries used, or a permanent
failure (after which `generateSegmentAudio` reports
`MAX_RETRIES + 1` retries). -/
inductive SegOutcome
  | success (buffer : Bytes) (retries : Nat)
  | failure (err : String)

/-- The placeholder pushed for a permanently failed segment:
`new ArrayBuffer(1024)`, i.e. 1024 zero bytes. -/
def silentBuffer : Bytes := List.replicate 1024 0

/-- The segment loop of `downloadAllSegments`: accumulates the buffer
list, the failed indices and the total retries, in segment order.
`outcome` is the oracle for the per-segment synthesis results. -/
def downloadRun (outcome : Nat → SegOutcome) (n : Nat) : List Bytes × List Nat × Nat :=
  (List.range n).foldl
    (fun acc i =>
      match outcome i with
      | SegOutcome.success b r => (acc.1 ++ [b], acc.2.1, acc.2.2 + r)
      | SegOutcome.failure _ =>
        (acc.1 ++ [silentBuffer], acc.2.1 ++ [i], acc.2.2 + (MAX_RETRIES + 1)))
    ([], [], 0)

/-- `downloadAllSegments` from `audioGenerator.ts` (the
`AudioDownloadManager` version with the retry framework): throws only on
an empty segment list, and otherwise never throws — each failed segment
contributes the silence placeholder instead.  (Voice-assignment
initialization and pacing delays have no effect on the returned
buffers and are not modelled.) -/
def downloadAllSegments (segments : List PodcastSegment) (outcome : Nat → SegOutcome) :
    Except String (List Bytes × List Nat × Nat) :=
  if segments.length = 0 then Except.error "No segments available for download"
  else Except.ok (downloadRun outcome segments.length)

/-- The buffer list `downloadAllSegments` is expected to build: per
segment, in original order, the synthesized audio on success and the
silence placeholder on permanent failure. -/
def expectedBuffers (outcome : Nat → SegOutcome) (n : Nat) : List Bytes :=
  (List.range n).map (fun i =>
    match outcome i with
    | SegOutcome.success b _ => b
    | SegOutcome.failure _ => silentBuffer)

/-- The indices of the permanently failed segments, in order. -/
def failedIndices (outcome : Nat → SegOutcome) (n : Nat) : List Nat :=
  (List.range n).filter (fun i =>
    match outcome i with
    | SegOutcome.success _ _ => false
    | SegOutcome.failure _ => true)

/-- The total retries accumulated over all segments. -/
def totalRetriesOf (outcome : Nat → SegOutcome) (n : Nat) : Nat :=
  ((List.range n).map (fun i =>
    match outcome i with
    | SegOutcome.success _ r => r
    | SegOutcome.failure _ => MAX_RETRIES + 1)).sum

set_option maxRecDepth 4000 in
theorem downloadRun_eq (outcome : Nat → SegOutcome) (n : Nat) :
    downloadRun outcome n
      = (expectedBuffers outcome n, failedIndices outcome n, totalRetriesOf outcome n) := by
  induction n with
  | zero => rfl
  | succ n ih =>
    unfold downloadRun at ih ⊢
    rw [List.range_succ, List.foldl_append, ih]
    simp only [List.foldl_cons, List.foldl_nil]
    cases ho : outcome n with
    | success b r =>
      dsimp only
      have e1 : expectedBuffers outcome (n + 1) = expectedBuffers outcome n ++ [b] := by
        unfold expectedBuffers
        rw [List.range_succ, List.map_append]
        simp only [List.map_cons, List.map_nil, ho]
      have e2 : failedIndices outcome (n + 1) = failedIndices outcome n := by
        unfold failedIndices
        rw [List.range_succ, List.filter_append]
        simp only [List.filter_cons, List.filter_nil, ho]
        simp
      have e3 : totalRetriesOf outcome (n + 1) = totalRetriesOf outcome n + r := by
        unfold totalRetriesOf
        rw [List.range_succ, List.map_append, List.sum_append]
        simp only [List.map_cons, List.map_nil, List.sum_cons, List.sum_nil, ho]
        omega
      rw [e1, e2, e3]
    | failure e =>
      dsimp only
      have e1 : expectedBuffers outcome (n + 1) = expectedBuffers outcome n ++ [silentBuffer] := by
        unfold expectedBuffers
        rw [List.range_succ, List.map_append]
        simp only [List.map_cons, List.map_nil, ho]
      have e2 : failedIndices outcome (n + 1) = failedIndices outcome n ++ [n] := by
        unfold failedIndices
        rw [List.range_succ, List.filter_append]
        simp only [List.filter_cons, List.filter_nil, ho]
        simp
      have e3 : totalRetriesOf outcome (n + 1)
          = totalRetriesOf outcome n + (MAX_RETRIES + 1) := by
        unfold totalRetriesOf
        rw [List.range_succ, List.map_append, List.sum_append]
        simp only [List.map_cons, List.map_nil, List.sum_cons, List.sum_nil, ho]
        simp only [Nat.add_zero]
      rw [e1, e2, e3]

/-- C1: on a nonempty script, `downloadAllSegments` does not throw: it
returns exactly one buffer per segment, in original segment order, where
a segment that failed all retries contributes the fixed 1024-byte
silence placeholder and every successful segment contributes its real
audio. -/
theorem downloadAllSegments_alignment (segments : List PodcastSegment)
    (outcome : Nat → SegOutcome) (h : 0 < segments.length) :
    downloadAllSegments segments outcome
      = Except.ok (expectedBuffers outcome segments.length,
          failedIndices outcome segments.length,
          totalRetriesOf outcome segments.length) ∧
    (expectedBuffers outcome segments.length).length = segments.length ∧
    silentBuffer.length = 1024 := by
  refine ⟨?_, ?_, by rw [silentBuffer, List.length_replicate]⟩
  · unfold downloadAllSegments
    rw [if_neg (by omega), downloadRun_eq]
  · rw [expectedBuffers, List.length_map, List.length_range]

/-- Witness for C1 at a concrete two-segment script whose second segment
fails permanently. -/
theorem downloadAllSegments_alignment_witness :
    downloadAllSegments
        [⟨"A".data, "Hi".data, SegmentType.host⟩, ⟨"B".data, "Yo".data, SegmentType.guest1⟩]
        (fun i => if i = 0 then SegOutcome.success [3, 4] 1 else SegOutcome.failure "boom")
      = Except.ok
          (expectedBuffers
            (fun i => if i = 0 then SegOutcome.success [3, 4] 1 else SegOutcome.failure "boom") 2,
           failedIndices
            (fun i => if i = 0 then SegOutcome.success [3, 4] 1 else SegOutcome.failure "boom") 2,
           totalRetriesOf
            (fun i => if i = 0 then SegOutcome.success [3, 4] 1 else SegOutcome.failure "boom") 2) ∧
    (expectedBuffers
        (fun i => if i = 0 then SegOutcome.success [3, 4] 1 else SegOutcome.failure "boom")
        2).length = 2 ∧
    silentBuffer.length = 1024 :=
  downloadAllSegments_alignment
    [⟨"A".data, "Hi".data, SegmentType.host⟩, ⟨"B".data, "Yo".data, SegmentType.guest1⟩]
    (fun i => if i = 0 then SegOutcome.success [3, 4] 1 else SegOutcome.failure "boom")
    (by decide)

/-- `reportProgress`'s `overallProgress` formula (part_011):
`((segmentIndex + segmentProgress / 100) / totalSegments) * 100`. -/
def overallProgressAt (total segmentIndex : Nat) (segmentProgress : ℚ) : ℚ :=
  (((segmentIndex : ℚ) + segmentProgress / 100) / (total : ℚ)) * 100

/-- The sequence of `overallProgress` values emitted during one
`downloadAndSave` run of `n` segments: one initializing report, then per
segment a 0% report and (on success only) a 100% report from
`generateSegmentAudio`, then the four post-loop reports, which pass
`segmentIndex = n` with segment progress 0, 50, 75 and 100. -/
def downloadAndSaveReports (n : Nat) (outcome : Nat → SegOutcome) : List ℚ :=
  overallProgressAt n 0 0 ::
    (((List.range n).flatMap (fun i =>
        overallProgressAt n i 0 ::
          (match outcome i with
           | SegOutcome.success _ _ => [overallProgressAt n i 100]
           | SegOutcome.failure _ => [])))
      ++ [overallProgressAt n n 0, overallProgressAt n n 50, overallProgressAt n n 75,
          overallProgressAt n n 100])

/-- C4: evaluating the reported progress at the failing input — one
segment, successful synthesis — gives the sequence
0, 0, 100, 100, 150, 175, 200.  It never decreases, but the final value
at completion is 200, not 100: the post-loop reports pass
`segmentIndex = n`, so the formula `((n + p/100) / n) * 100` exceeds 100
for every `p > 0`, contradicting the claim and the code's own comment
that `overallProgress` is `0-100 for entire download`. -/
theorem downloadAndSave_final_progress_bug :
    downloadAndSaveReports 1 (fun _ => SegOutcome.success [1] 0)
      = [0, 0, 100, 100, 150, 175, 200] ∧
    (downloadAndSaveReports 1 (fun _ => SegOutcome.success [1] 0)).getLast? = some 200 ∧
    (200 : ℚ) ≠ 100 := by
  have h : downloadAndSaveReports 1 (fun _ => SegOutcome.success [1] 0)
      = [0, 0, 100, 100, 150, 175, 200] := by
    unfold downloadAndSaveReports overallProgressAt
    norm_num [List.range_succ, List.flatMap_cons, List.flatMap_nil]
  refine ⟨h, ?_, by norm_num⟩
  rw [h]
  rfl

end Podcast
